import Mathlib

/-!
# Verification of the openclaw-ark backup engine

Shallow embedding of `src/engine.ts` (archive create/restore, tar-style
container codec, retention pruning) and `src/config.ts` (category registry).

Bytes are modelled as `Nat` (values < 256 in every input we consider); byte
buffers as `List Nat`.  The platform crypto and compression primitives
(`node:crypto` AES-256-GCM / PBKDF2, `node:zlib` gzip) are outside the
repository; they are modelled as an abstract `CryptoModel` record, and
theorems about decryption carry the ideal authenticated-encryption
assumptions as explicit hypotheses.
-/

set_option maxRecDepth 100000

namespace OCB

/-! ## Byte-level helpers for the tar codec (`engine.ts`, `tarHeader`/pack) -/

/-- The archive magic constant, bytes of `"OCBAK1"` (`engine.ts` line 22). -/
def MAGIC : List Nat := [79, 67, 66, 65, 75, 49]

/-- Bytes of the reserved manifest entry name `"manifest.json"`. -/
def manifestNameBytes : List Nat :=
  [109, 97, 110, 105, 102, 101, 115, 116, 46, 106, 115, 111, 110]

/-- A fixed-width field: the payload truncated to `w` bytes and padded with
zero bytes up to width `w` (a `Buffer.alloc` region after `Buffer.write`). -/
def fieldPad (w : Nat) (bs : List Nat) : List Nat :=
  bs.take w ++ List.replicate (w - (bs.take w).length) 0

/-- Little-endian base-8 digit values of `n`, with explicit fuel so the
kernel can evaluate it (`fuel ≥ n` suffices). -/
def octDigitsCore : Nat → Nat → List Nat
  | 0, _ => []
  | fuel + 1, n => if n = 0 then [] else n % 8 :: octDigitsCore fuel (n / 8)

/-- Octal ASCII digits of `n`, most significant first (`n.toString(8)`);
empty for `n = 0` (the JS `"0"` is recovered by the zero padding below). -/
def octDigits (n : Nat) : List Nat := ((octDigitsCore n n).reverse).map (· + 48)

/-- The JS `n.toString(8).padStart(w, "0")` as ASCII bytes. -/
def octPad (w : Nat) (n : Nat) : List Nat :=
  List.replicate (w - (octDigits n).length) 48 ++ octDigits n

/-- Bytes of the mode field `"0000644\0"`. -/
def modeField : List Nat := [48, 48, 48, 48, 54, 52, 52, 0]

/-- Bytes of the uid/gid field `"0001000\0"`. -/
def uidField : List Nat := [48, 48, 48, 49, 48, 48, 48, 0]

/-- A 512-byte tar metadata block with an explicit checksum field `chk`
(bytes 148–155).  Field layout follows `tarHeader` in `engine.ts`:
name (100, the JS `name.slice(0, 99)` keeps at most 99 chars), mode (8),
uid (8), gid (8), size (12, octal), mtime (12, taken as a parameter since the
source reads the clock), checksum (8), typeflag `"0"` (1), linkname area
(100 zero bytes), `"ustar\0"` (6), `"00"` (2), padding zeros (247).
The size field is faithful for `size < 8^11` (larger sizes would overflow
the 12-byte field in the source as well). -/
def tarHeaderRaw (name : List Nat) (size : Nat) (mtime : List Nat)
    (chk : List Nat) : List Nat :=
  (fieldPad 100 (name.take 99) ++ modeField ++ uidField ++ uidField) ++
    ((octPad 11 size ++ [0]) ++
      (fieldPad 12 mtime ++ fieldPad 8 chk ++ [48] ++
        List.replicate 100 0 ++ [117, 115, 116, 97, 114, 0] ++
        [48, 48] ++ List.replicate 247 0))

/-- The 8-space blank checksum field written before summing. -/
def spaces8 : List Nat := List.replicate 8 32

/-- The additive checksum: sum of the 512 header bytes with the checksum
field blanked to spaces (`engine.ts` lines 79–81). -/
def tarChecksum (name : List Nat) (size : Nat) (mtime : List Nat) : Nat :=
  (tarHeaderRaw name size mtime spaces8).sum

/-- The written checksum field: 6 octal digits, NUL, space. -/
def chkField (n : Nat) : List Nat := octPad 6 n ++ [0, 32]

/-- The complete tar metadata block as written by `tarHeader` in the source. -/
def tarHeader (name : List Nat) (size : Nat) (mtime : List Nat) : List Nat :=
  tarHeaderRaw name size mtime (chkField (tarChecksum name size mtime))

/-- Zero padding to the next 512-byte boundary (`engine.ts` lines 186–187:
`pad = 512 - len % 512; if (pad < 512) push(alloc(pad))`). -/
def padding (n : Nat) : List Nat :=
  if n % 512 = 0 then [] else List.replicate (512 - n % 512) 0

/-- One packed entry with an explicit checksum field (used to state that the
checksum is never read back). -/
def packEntryChk (chk : List Nat) (mtime : List Nat)
    (e : List Nat × List Nat) : List Nat :=
  tarHeaderRaw e.1 e.2.length mtime chk ++ e.2 ++ padding e.2.length

/-- One packed entry: metadata block, raw bytes, zero padding. -/
def packEntry (mtime : List Nat) (e : List Nat × List Nat) : List Nat :=
  tarHeader e.1 e.2.length mtime ++ e.2 ++ padding e.2.length

/-- The packed file entries followed by the end-of-archive marker
(two 512-byte zero blocks, `Buffer.alloc(1024)`). -/
def packTail (mtime : List Nat) : List (List Nat × List Nat) → List Nat
  | [] => List.replicate 1024 0
  | e :: es => packEntry mtime e ++ packTail mtime es

/-- The whole container built by `createBackup`: the manifest JSON as first
entry, then the collected files in order, then the end marker. -/
def pack (mtime manifestBytes : List Nat)
    (entries : List (List Nat × List Nat)) : List Nat :=
  packEntry mtime (manifestNameBytes, manifestBytes) ++ packTail mtime entries

/-- Container variant whose checksum fields are replaced by arbitrary bytes
(`chks 0` for the manifest block, `chks (i+1)` for the i-th file block).
Outside the checksum fields it is byte-identical to `pack`. -/
def packTailChk (chks : Nat → List Nat) (mtime : List Nat) :
    List (List Nat × List Nat) → List Nat
  | [] => List.replicate 1024 0
  | e :: es => packEntryChk (chks 0) mtime e ++
      packTailChk (fun i => chks (i + 1)) mtime es

/-- Variant of `pack` with arbitrary checksum-field bytes in every metadata block. -/
def packChk (chks : Nat → List Nat) (mtime manifestBytes : List Nat)
    (entries : List (List Nat × List Nat)) : List Nat :=
  packEntryChk (chks 0) mtime (manifestNameBytes, manifestBytes) ++
    packTailChk (fun i => chks (i + 1)) mtime entries

/-! ## The unpack loop of `restoreBackup` (`engine.ts` lines 291–305)

The source scans the container with an absolute position `pos`; we model the
same reads on the remaining suffix (`tar.subarray(pos + a, pos + b)` becomes
`(suffix.drop a).take (b - a)`, with the same clamping semantics).  The loop
always advances by at least 512 bytes, so a fuel of `length / 512 + 1` is
enough for every input. -/

/-- Is the byte an octal digit (`'0'`–`'7'`)? -/
def isOctDigitB (b : Nat) : Bool := 48 ≤ b && b ≤ 55

/-- Accumulating octal value of a digit-code list. -/
def octValAux (acc : Nat) : List Nat → Nat
  | [] => acc
  | b :: bs => octValAux (acc * 8 + (b - 48)) bs

/-- The JS `parseInt(s, 8) || 0`: leading octal digits are read, anything else stops
the parse, and no digits at all yields 0.  (The size fields considered here
never carry a sign, so `parseInt`'s sign handling is not reachable.) -/
def parseOctal (bs : List Nat) : Nat :=
  let ds := bs.takeWhile isOctDigitB
  if ds = [] then 0 else octValAux 0 ds

/-- ASCII whitespace as stripped by `String.prototype.trim`. -/
def isJsSpace (b : Nat) : Bool := b == 32 || (9 ≤ b && b ≤ 13)

/-- The JS `s.trim()` on byte lists. -/
def trimBytes (bs : List Nat) : List Nat :=
  ((bs.dropWhile isJsSpace).reverse.dropWhile isJsSpace).reverse

/-- One pass of the unpack loop: read a 512-byte metadata block, stop on an
all-zero block, decode the NUL-stripped name and the octal size, slice the
declared number of content bytes (clamped to the remaining stream, like
`subarray`), and skip to the next 512-byte boundary. -/
def tarEntriesAux : Nat → List Nat → List (List Nat × List Nat)
  | 0, _ => []
  | fuel + 1, tar =>
    if 512 ≤ tar.length then
      let header := tar.take 512
      if header.all (fun b => b == 0) then []
      else
        let name := (header.take 100).filter (fun b => b != 0)
        let sizeStr :=
          trimBytes (((header.drop 124).take 12).filter (fun b => b != 0))
        let size := parseOctal sizeStr
        let content := (tar.drop 512).take size
        let rem := size % 512
        let skip := 512 + size + (if rem > 0 then 512 - rem else 0)
        (name, content) :: tarEntriesAux fuel (tar.drop skip)
    else []

/-- All `(name, content)` entries the unpack loop of `restoreBackup` reads
from a decrypted, decompressed container. -/
def tarEntries (tar : List Nat) : List (List Nat × List Nat) :=
  tarEntriesAux (tar.length / 512 + 1) tar

/-! ## Category registry (`config.ts`) -/

/-- A backup category of the registry. -/
structure Category where
  id : String
  label : String
  sensitive : Bool
  paths : String → String → List String

/-- The node `resolve(dir, sub)` for a relative `sub`. -/
def pathJoin (dir sub : String) : String := dir ++ "/" ++ sub

/-- The static category registry of `config.ts`. -/
def CATEGORIES : List Category := [
  ⟨"config", "OpenClaw Config", true, fun oc _ => [pathJoin oc "openclaw.json"]⟩,
  ⟨"credentials", "Credentials", true, fun oc _ => [pathJoin oc "credentials"]⟩,
  ⟨"wallet", "DOGE Wallet", true, fun oc _ => [pathJoin oc "doge"]⟩,
  ⟨"brain", "Brain Data", false, fun oc _ => [pathJoin oc "brain"]⟩,
  ⟨"docrag", "Document Store", false, fun oc _ => [pathJoin oc "docrag"]⟩,
  ⟨"cron", "Cron Jobs", false, fun oc _ => [pathJoin oc "cron"]⟩,
  ⟨"extensions", "Extensions/Plugins", false, fun oc _ => [pathJoin oc "extensions"]⟩,
  ⟨"workspace", "Agent Workspace", false, fun _ ws => [ws]⟩,
  ⟨"devices", "Paired Devices", false, fun oc _ => [pathJoin oc "devices"]⟩,
  ⟨"identity", "Agent Identity", false, fun oc _ => [pathJoin oc "identity"]⟩]

/-- The lookup `CATEGORIES.find((c) => c.id === catId)`. -/
def catLookup (catId : String) : Option Category :=
  CATEGORIES.find? (fun c => c.id == catId)

/-! ## Restore: per-entry processing (`engine.ts` lines 307–346) -/

/-- Decode bytes to the string the source gets from `toString("utf-8")`
(faithful for the ASCII names all considered inputs use). -/
def asString (bs : List Nat) : String := String.mk (bs.map Char.ofNat)

/-- The JS `name.split("/")[0]`: the characters before the first `'/'` (the whole
name when there is none). -/
def firstSeg (name : String) : String :=
  String.mk (name.data.takeWhile (fun c => c != '/'))

/-- The JS `name.slice(k)` on an ASCII string: drop the first `k` characters. -/
def strDrop (name : String) (k : Nat) : String := String.mk (name.data.drop k)

/-- The test `base.match(/\.[a-z]+$/i)`: does the path end in a dot followed by one or
more ASCII letters? -/
def hasFileExtension (s : String) : Bool :=
  let r := s.data.reverse
  let letters := r.takeWhile (fun c => c.isAlpha)
  !letters.isEmpty && ((r.drop letters.length).headD ' ' == '.')

/-- Output-path resolution for an entry name (`engine.ts` lines 313–335):
category = first path segment, base = the category's first resolved root;
an empty remaining path or an extension-bearing base writes to the base
itself, otherwise the remaining path is joined under the base. -/
def destPath (oc ws name : String) : String :=
  let catId := firstSeg name
  match catLookup catId with
  | none => ""
  | some catDef =>
    let relPath := strDrop name (catId.length + 1)
    let base := (catDef.paths oc ws).headD ""
    if relPath = "" then base
    else if hasFileExtension base then base
    else pathJoin base relPath

/-- The category-filter skip condition of the loop
(`filterCats && !filterCats.has(catId)`; note a present-but-empty filter
list excludes everything, like the JS truthy empty `Set`). -/
def filterSkips (filterCats : Option (List String)) (catId : String) : Bool :=
  match filterCats with
  | some f => !(f.contains catId)
  | none => false

/-- Insertion-ordered set add (`Set.prototype.add` then spread). -/
def addUnique (l : List String) (s : String) : List String :=
  if l.contains s then l else l ++ [s]

/-- The observable outcome of the restore loop: the manifest entry bytes, the
restored category ids in first-restored order, the entry count, and the
`(path, bytes)` filesystem writes in order (empty under `dryRun`). -/
structure TarRestoreState where
  manifest : Option (List Nat)
  restoredCategories : List String
  fileCount : Nat
  writes : List (String × List Nat)
deriving DecidableEq, Repr

/-- Restore options: optional category filter and dry-run flag. -/
structure RestoreOptions where
  categories : Option (List String)
  dryRun : Bool

/-- The body of the restore loop for one parsed entry: record the manifest,
apply the category filter, skip unknown category ids, resolve the output
path, write (unless dry-run), and count. -/
def processEntry (filterCats : Option (List String)) (dryRun : Bool)
    (oc ws : String) (st : TarRestoreState) (e : List Nat × List Nat) :
    TarRestoreState :=
  let name := asString e.1
  if name == "manifest.json" then { st with manifest := some e.2 }
  else
    let catId := firstSeg name
    if filterSkips filterCats catId then st
    else
      match catLookup catId with
      | none => st
      | some _ =>
        let outPath := destPath oc ws name
        let st1 := if dryRun then st
                   else { st with writes := st.writes ++ [(outPath, e.2)] }
        { st1 with
            restoredCategories := addUnique st1.restoredCategories catId,
            fileCount := st1.fileCount + 1 }

/-- The initial loop state. -/
def initRestoreState : TarRestoreState := ⟨none, [], 0, []⟩

/-- The whole unpack-and-restore loop over a decrypted, decompressed
container.  (The source additionally `JSON.parse`s the manifest entry; that
platform call is modelled as total, storing the raw bytes.) -/
def restoreFromTar (tar : List Nat) (opts : RestoreOptions)
    (oc ws : String) : TarRestoreState :=
  (tarEntries tar).foldl (processEntry opts.categories opts.dryRun oc ws)
    initRestoreState

/-! ## Crypto pipeline and the archive engine -/

/-- Modelled from the spec: the key-derivation, authenticated-encryption and
compression primitives (`node:crypto` PBKDF2/AES-256-GCM, `node:zlib` gzip)
used by the engine but living outside this repository.  `deriveKey` is the
slow passphrase-to-key derivation over a salt; `seal` encrypts a plaintext
under a key and IV into the pair `(ciphertext, authTag)`; `aeadOpen` verifies and
decrypts in one step, `none` on any authentication failure; `gzip`/`gunzip`
are the whole-buffer compressor and its fallible inverse. -/
structure CryptoModel where
  deriveKey : String → List Nat → Nat
  aeadSeal : Nat → List Nat → List Nat → List Nat × List Nat
  aeadOpen : Nat → List Nat → List Nat → List Nat → Option (List Nat)
  gzip : List Nat → List Nat
  gunzip : List Nat → Option (List Nat)

/-- The manifest record (`BackupManifest` in `engine.ts`). -/
structure BackupManifest where
  version : String
  createdAt : String
  hostname : String
  categories : List String
  fileCount : Nat
  totalBytes : Nat
deriving DecidableEq, Repr

/-- What `createBackup` produces: the archive bytes written to disk, the
returned manifest, and the written size. -/
structure CreateResult where
  archive : List Nat
  manifest : BackupManifest
  sizeBytes : Nat
deriving DecidableEq, Repr

/-- The function `createBackup` (`engine.ts` lines 135–231) over already-collected files.
The manifest is built with `totalBytes: 0`, serialized immediately
(`mjson` models `JSON.stringify`), packed as the first entry, and only the
*returned* copy is later overwritten with `tarBuf.length` (line 219; the
in-loop `totalBytes += content.length` is dead, being overwritten).  The
archive is `MAGIC ++ salt ++ iv ++ authTag ++ ciphertext`. -/
def createBackup (cm : CryptoModel) (pass : String) (salt iv mtime : List Nat)
    (createdAt hostname : String) (catIds : List String)
    (files : List (List Nat × List Nat))
    (mjson : BackupManifest → List Nat) : CreateResult :=
  let m0 : BackupManifest :=
    ⟨"1", createdAt, hostname, catIds, files.length, 0⟩
  let mb := mjson m0
  let tarBuf := pack mtime mb files
  let gz := cm.gzip tarBuf
  let key := cm.deriveKey pass salt
  let sealed := cm.aeadSeal key iv gz
  let output := MAGIC ++ salt ++ iv ++ sealed.2 ++ sealed.1
  { archive := output,
    manifest := { m0 with totalBytes := tarBuf.length },
    sizeBytes := output.length }

/-- The error kinds a restore can surface.  `invalidArchive` is the bad-magic
throw; `decryptionFailed` the caught `update`/`final` failure;
`corruptArchive` the gunzip failure; `cryptoError` the uncaught
`createDecipheriv` throw on an invalid (truncated) IV. -/
inductive RestoreError where
  | invalidArchive
  | decryptionFailed
  | corruptArchive
  | cryptoError
deriving DecidableEq, Repr

/-- The function `restoreBackup` (`engine.ts` lines 236–354).  The second component
records whether key derivation was invoked: the source calls `deriveKey` on
every path past the magic check (line 261), and on no other path. -/
def restoreBackup (cm : CryptoModel) (archive : List Nat) (pass : String)
    (opts : RestoreOptions) (oc ws : String) :
    Except RestoreError TarRestoreState × Bool :=
  if archive.take 6 = MAGIC then
    let salt := (archive.drop 6).take 32
    let iv := (archive.drop 38).take 16
    let tag := (archive.drop 54).take 16
    let ct := archive.drop 70
    let key := cm.deriveKey pass salt
    if iv.length ≠ 16 then (.error .cryptoError, true)
    else
      match cm.aeadOpen key iv tag ct with
      | none => (.error .decryptionFailed, true)
      | some gz =>
        match cm.gunzip gz with
        | none => (.error .corruptArchive, true)
        | some tar => (.ok (restoreFromTar tar opts oc ws), true)
  else (.error .invalidArchive, false)

/-! ## Retention manager (`engine.ts` lines 359–409) -/

/-- A file in the backup directory as `listBackups` sees it. -/
structure ArchiveFile where
  name : String
  size : Nat
  mtime : Nat
deriving DecidableEq, Repr

/-- Stable insertion into a list sorted by `mtime` descending. -/
def insertByMtimeDesc (x : ArchiveFile) :
    List ArchiveFile → List ArchiveFile
  | [] => [x]
  | y :: ys =>
    if y.mtime < x.mtime then x :: y :: ys else y :: insertByMtimeDesc x ys

/-- Stable sort by `mtime` descending (the JS
`sort((a, b) => b.createdAt - a.createdAt)`). -/
def sortByMtimeDesc (l : List ArchiveFile) : List ArchiveFile :=
  l.foldr insertByMtimeDesc []

/-- The JS `filename.endsWith(suffix)` on character lists. -/
def endsWithS (s suffix : String) : Bool := suffix.data.isSuffixOf s.data

/-- The function `listBackups`: filter to the `.ocbak` suffix, newest first. -/
def listBackups (dir : List ArchiveFile) : List ArchiveFile :=
  sortByMtimeDesc (dir.filter (fun f => endsWithS f.name ".ocbak"))

/-- The node `fs.promises.unlink`: removes the file, rejects (ENOENT) if absent. -/
def unlinkF (dir : List ArchiveFile) (name : String) :
    Except Unit (List ArchiveFile) :=
  if dir.any (fun f => f.name == name) then
    .ok (dir.filter (fun f => !(f.name == name)))
  else .error ()

/-- Phase 1 of pruning: delete every listed archive older than the age
limit.  The `unlink` is not guarded in the source, so a failure propagates
and aborts the whole prune. -/
def pruneAge (now maxAgeMs : Nat) :
    List ArchiveFile → List ArchiveFile → List String →
    Except Unit (List ArchiveFile × List String)
  | [], dir, pruned => .ok (dir, pruned)
  | b :: bs, dir, pruned =>
    if now - b.mtime > maxAgeMs then
      match unlinkF dir b.name with
      | .error _ => .error ()
      | .ok dir1 => pruneAge now maxAgeMs bs dir1 (pruned ++ [b.name])
    else pruneAge now maxAgeMs bs dir pruned

/-- Phase 2 of pruning: delete each of the given excess archives. -/
def pruneCount :
    List ArchiveFile → List ArchiveFile → List String →
    Except Unit (List ArchiveFile × List String)
  | [], dir, pruned => .ok (dir, pruned)
  | b :: bs, dir, pruned =>
    match unlinkF dir b.name with
    | .error _ => .error ()
    | .ok dir1 => pruneCount bs dir1 (pruned ++ [b.name])

/-- The function `pruneBackups` (`engine.ts` lines 379–409): list, delete by age, re-list,
delete the oldest entries beyond `maxBackups`.  `vanished` names files that
disappear between the initial listing and the deletion attempts (the race
§5 of the spec discusses); with `vanished = []` this is the exact sequential
behaviour.  Returns the reported pruned filenames and the final directory. -/
def pruneBackups (dir : List ArchiveFile) (vanished : List String)
    (now maxBackups maxAgeDays : Nat) :
    Except Unit (List String × List ArchiveFile) :=
  let backups := listBackups dir
  let actual := dir.filter (fun f => !(vanished.contains f.name))
  let maxAge := maxAgeDays * 86400000
  match pruneAge now maxAge backups actual [] with
  | .error _ => .error ()
  | .ok (dir1, pruned1) =>
    let remaining := listBackups dir1
    if remaining.length > maxBackups then
      match pruneCount (remaining.drop maxBackups) dir1 pruned1 with
      | .error _ => .error ()
      | .ok (dir2, pruned2) => .ok (pruned2, dir2)
    else .ok (pruned1, dir1)

/-! ## Derived predicates and concrete instances used below -/

/-- Is the entry the reserved manifest entry? -/
def entryIsManifest (e : List Nat × List Nat) : Bool :=
  asString e.1 == "manifest.json"

/-- Whether the restore loop acts on the entry: not the manifest, passes the
category filter, and its first path segment is a registry category id. -/
def entryProcessed (filterCats : Option (List String))
    (e : List Nat × List Nat) : Bool :=
  !(asString e.1 == "manifest.json") &&
  !(filterSkips filterCats (firstSeg (asString e.1))) &&
  (catLookup (firstSeg (asString e.1))).isSome

/-- The manifest bytes after the loop: the last manifest entry wins,
`dflt` if there is none. -/
def lastManifest (dflt : Option (List Nat)) :
    List (List Nat × List Nat) → Option (List Nat)
  | [] => dflt
  | e :: es => lastManifest (if entryIsManifest e then some e.2 else dflt) es

/-- A concrete crypto instance for witnesses and counterexamples: identity
compression and pass-through opening (decryption always succeeds and hands
the ciphertext back as the compressed container). -/
def cmTriv : CryptoModel :=
  { deriveKey := fun _ _ => 0,
    aeadSeal := fun _ _ pt => (pt, List.replicate 16 0),
    aeadOpen := fun _ _ _ ct => some ct,
    gzip := fun b => b,
    gunzip := fun b => some b }

/-- A container whose single metadata block declares 4096 content bytes
while only 512 bytes follow (a malformed size field). -/
def badSizeTar : List Nat :=
  tarHeader [98, 114, 97, 105, 110, 47, 120] 4096 (List.replicate 12 48) ++
    List.replicate 512 7

/-- Concrete salt, IV, timestamp field, serialized manifest, container and
tag used by the witnesses below. -/
def salt0 : List Nat := List.replicate 32 0

def iv0 : List Nat := List.replicate 16 0

def mtime0 : List Nat := List.replicate 12 48

def mjson0 : BackupManifest → List Nat := fun _ => [123, 125]

def CT0 : List Nat := pack mtime0 [123, 125] []

def TAG0 : List Nat := List.replicate 16 3

/-- A concrete crypto instance satisfying the ideal-AEAD hypotheses:
opening succeeds only on the exact sealed triple. -/
def cmStrict : CryptoModel :=
  { deriveKey := fun p _ => if p = "pw" then 1 else 2,
    aeadSeal := fun _ _ pt => (pt, TAG0),
    aeadOpen := fun k _ t c =>
      if k = 1 ∧ t = TAG0 ∧ c = CT0 then some CT0 else none,
    gzip := fun b => b,
    gunzip := fun b => some b }

/-- A 100-byte archive name: `"brain/"` followed by 94 `'a'`s. -/
def longName : List Nat := [98, 114, 97, 105, 110, 47] ++ List.replicate 94 97

/-- A serializer that reflects the `fileCount` and `totalBytes` fields,
making the serialized manifest's `totalBytes` observable. -/
def mjsonC5 : BackupManifest → List Nat := fun m => [m.fileCount, m.totalBytes]

/-! ## Codec lemmas: the unpack loop inverts `pack` -/

lemma fieldPad_length (w : Nat) (bs : List Nat) : (fieldPad w bs).length = w := by
  have h : (bs.take w).length ≤ w := by
    simp [List.length_take]
  simp only [fieldPad, List.length_append, List.length_replicate]
  omega

lemma octDigitsCore_eq_digits : ∀ fuel n, n ≤ fuel →
    octDigitsCore fuel n = Nat.digits 8 n := by
  intro fuel
  induction fuel with
  | zero =>
    intro n hn
    have : n = 0 := by omega
    subst this
    simp [octDigitsCore]
  | succ f ih =>
    intro n hn
    by_cases h0 : n = 0
    · subst h0
      simp [octDigitsCore]
    · rw [octDigitsCore, if_neg h0,
        Nat.digits_def' (by norm_num : (1 : Nat) < 8) (Nat.pos_of_ne_zero h0)]
      rw [ih (n / 8) (by
        have : n / 8 < n := Nat.div_lt_self (Nat.pos_of_ne_zero h0) (by norm_num)
        omega)]

lemma octDigits_eq (n : Nat) :
    octDigits n = ((Nat.digits 8 n).reverse).map (· + 48) := by
  rw [octDigits, octDigitsCore_eq_digits n n le_rfl]

lemma octDigits_length_le {w n : Nat} (h : n < 8 ^ w) :
    (octDigits n).length ≤ w := by
  rw [octDigits_eq]
  rcases eq_or_ne n 0 with rfl | hn
  · simp
  · have hlog : Nat.log 8 n < w := (Nat.lt_pow_iff_log_lt (by norm_num) hn).mp h
    have hlen : (Nat.digits 8 n).length = Nat.log 8 n + 1 :=
      Nat.digits_len 8 n (by norm_num) hn
    simp only [List.length_map, List.length_reverse, hlen]
    omega

lemma octPad_length {w n : Nat} (h : (octDigits n).length ≤ w) :
    (octPad w n).length = w := by
  simp only [octPad, List.length_append, List.length_replicate]
  omega

lemma octDigits_mem {n b : Nat} (hb : b ∈ octDigits n) : 48 ≤ b ∧ b ≤ 55 := by
  rw [octDigits_eq] at hb
  simp only [List.mem_map, List.mem_reverse] at hb
  obtain ⟨d, hd, rfl⟩ := hb
  have := Nat.digits_lt_base (by norm_num) hd
  omega

lemma octPad_mem {w n b : Nat} (hb : b ∈ octPad w n) : 48 ≤ b ∧ b ≤ 55 := by
  simp only [octPad, List.mem_append, List.mem_replicate] at hb
  rcases hb with h | h
  · omega
  · exact octDigits_mem h

lemma tarHeaderRaw_length {size : Nat} (name mtime chk : List Nat)
    (hsize : size < 8 ^ 11) : (tarHeaderRaw name size mtime chk).length = 512 := by
  have h11 : (octPad 11 size).length = 11 :=
    octPad_length (octDigits_length_le hsize)
  simp [tarHeaderRaw, modeField, uidField, fieldPad_length, h11]

lemma octValAux_append (acc : Nat) (l1 l2 : List Nat) :
    octValAux acc (l1 ++ l2) = octValAux (octValAux acc l1) l2 := by
  induction l1 generalizing acc with
  | nil => rfl
  | cons b t ih => exact ih (acc * 8 + (b - 48))

lemma octValAux_zeros (k : Nat) : octValAux 0 (List.replicate k 48) = 0 := by
  induction k with
  | zero => rfl
  | succ n ih => rw [List.replicate_succ]; exact ih

lemma foldr_ofDigits (L : List Nat) :
    L.foldr (fun d a => a * 8 + d) 0 = Nat.ofDigits 8 L := by
  induction L with
  | nil => simp [Nat.ofDigits]
  | cons d t ih => simp [Nat.ofDigits_cons, ih]; ring

lemma octValAux_octDigits (n : Nat) : octValAux 0 (octDigits n) = n := by
  have hfold : ∀ (L : List Nat) (acc : Nat),
      octValAux acc (L.map (· + 48)) = L.foldl (fun a d => a * 8 + d) acc := by
    intro L
    induction L with
    | nil => intro acc; rfl
    | cons d t ih =>
      intro acc
      rw [List.map_cons, List.foldl_cons]
      show octValAux (acc * 8 + (d + 48 - 48)) (t.map (· + 48)) =
        t.foldl (fun a d => a * 8 + d) (acc * 8 + d)
      rw [Nat.add_sub_cancel]
      exact ih _
  rw [octDigits_eq]
  calc octValAux 0 (((Nat.digits 8 n).reverse).map (· + 48))
      = ((Nat.digits 8 n).reverse).foldl (fun a d => a * 8 + d) 0 := hfold _ 0
    _ = (Nat.digits 8 n).foldr (fun d a => a * 8 + d) 0 :=
        List.foldl_reverse _ _ _
    _ = Nat.ofDigits 8 (Nat.digits 8 n) := foldr_ofDigits _
    _ = n := Nat.ofDigits_digits 8 n

lemma octPad_ne_nil (n : Nat) : octPad 11 n ≠ [] := by
  intro h
  have := congrArg List.length h
  simp only [octPad, List.length_append, List.length_replicate,
    List.length_nil] at this
  omega

lemma parseOctal_octPad (n : Nat) : parseOctal (octPad 11 n) = n := by
  have hall : ∀ b ∈ octPad 11 n, isOctDigitB b = true := by
    intro b hb
    have := octPad_mem hb
    simp only [isOctDigitB, Bool.and_eq_true, decide_eq_true_eq]
    omega
  have htw : (octPad 11 n).takeWhile isOctDigitB = octPad 11 n :=
    List.takeWhile_eq_self_iff.mpr hall
  simp only [parseOctal, htw]
  rw [if_neg (octPad_ne_nil n), octPad, octValAux_append, octValAux_zeros,
    octValAux_octDigits]

lemma trimBytes_eq_self {l : List Nat} (h : ∀ b ∈ l, isJsSpace b = false) :
    trimBytes l = l := by
  have hdw : ∀ (m : List Nat), (∀ b ∈ m, isJsSpace b = false) →
      m.dropWhile isJsSpace = m := by
    intro m hm
    cases m with
    | nil => rfl
    | cons a t =>
      rw [List.dropWhile_cons_of_neg]
      simp [hm a (by simp)]
  rw [trimBytes, hdw l h, hdw _ (by intro b hb; exact h b (by simpa using hb)),
    List.reverse_reverse]

lemma filter_replicate_zero (k : Nat) :
    (List.replicate k (0 : Nat)).filter (fun b => b != 0) = [] := by
  apply List.filter_eq_nil_iff.mpr
  intro a ha
  simp [List.eq_of_mem_replicate ha]

lemma filter_fieldPad (w : Nat) (bs : List Nat) :
    (fieldPad w bs).filter (fun b => b != 0) =
      (bs.take w).filter (fun b => b != 0) := by
  simp [fieldPad, List.filter_append, filter_replicate_zero]

lemma padding_length (n : Nat) :
    (padding n).length = if n % 512 = 0 then 0 else 512 - n % 512 := by
  by_cases h : n % 512 = 0 <;> simp [padding, h]

/-- One step of the unpack loop over a packed entry (with an arbitrary
checksum field): the NUL-stripped, 99-byte-truncated name and the exact
content bytes are recovered, and the loop continues right after the entry. -/
lemma tarEntriesAux_cons (fuel : Nat) (chk mtime name content rest : List Nat)
    (hsize : content.length < 8 ^ 11) :
    tarEntriesAux (fuel + 1) (packEntryChk chk mtime (name, content) ++ rest) =
      ((name.take 99).filter (fun b => b != 0), content) ::
        tarEntriesAux fuel rest := by
  have hH : (tarHeaderRaw name content.length mtime chk).length = 512 :=
    tarHeaderRaw_length _ _ _ hsize
  have htar : packEntryChk chk mtime (name, content) ++ rest =
      tarHeaderRaw name content.length mtime chk ++
        (content ++ (padding content.length ++ rest)) := by
    simp [packEntryChk, List.append_assoc]
  have hlen : 512 ≤ (tarHeaderRaw name content.length mtime chk ++
      (content ++ (padding content.length ++ rest))).length := by
    simp [List.length_append, hH]
  have hheader : (tarHeaderRaw name content.length mtime chk ++
      (content ++ (padding content.length ++ rest))).take 512 =
      tarHeaderRaw name content.length mtime chk :=
    List.take_left' hH
  have hdrop512 : (tarHeaderRaw name content.length mtime chk ++
      (content ++ (padding content.length ++ rest))).drop 512 =
      content ++ (padding content.length ++ rest) :=
    List.drop_left' hH
  -- the header is not the all-zero end marker: its mode field contains '6'
  have h54 : (54 : Nat) ∈ tarHeaderRaw name content.length mtime chk := by
    rw [tarHeaderRaw]
    simp [modeField, List.mem_append]
  have hnz : (tarHeaderRaw name content.length mtime chk).all
      (fun b => b == 0) = false :=
    List.all_eq_false.mpr ⟨54, h54, by simp⟩
  -- the name field occupies the first 100 bytes
  have h100 : (fieldPad 100 (name.take 99)).length = 100 := fieldPad_length _ _
  have hpre124 : (fieldPad 100 (name.take 99) ++ modeField ++ uidField ++
      uidField).length = 124 := by
    simp [List.length_append, h100, modeField, uidField]
  have htake100 : (tarHeaderRaw name content.length mtime chk).take 100 =
      fieldPad 100 (name.take 99) := by
    rw [tarHeaderRaw]
    rw [List.take_append_of_le_length (by rw [hpre124]; omega)]
    rw [List.take_append_of_le_length (by simp [List.length_append, h100])]
    rw [List.take_append_of_le_length (by simp [List.length_append, h100, modeField])]
    rw [List.take_append_of_le_length (by rw [h100])]
    exact List.take_of_length_le (by rw [h100])
  have hname : ((tarHeaderRaw name content.length mtime chk).take 100).filter
      (fun b => b != 0) = (name.take 99).filter (fun b => b != 0) := by
    rw [htake100, filter_fieldPad]
    congr 1
    exact List.take_of_length_le (by simp [List.length_take])
  -- the size field occupies bytes 124–135
  have h11 : (octPad 11 content.length).length = 11 :=
    octPad_length (octDigits_length_le hsize)
  have hsz : ((tarHeaderRaw name content.length mtime chk).drop 124).take 12 =
      octPad 11 content.length ++ [0] := by
    rw [tarHeaderRaw, List.drop_left' hpre124]
    rw [List.take_append_of_le_length (by simp [h11])]
    exact List.take_of_length_le (by simp [h11])
  have hfilter0 : (([0] : List Nat).filter (fun b => b != 0)) = [] := rfl
  have hoct : (octPad 11 content.length).filter (fun b => b != 0) =
      octPad 11 content.length := by
    apply List.filter_eq_self.mpr
    intro b hb
    have := octPad_mem hb
    simp only [bne_iff_ne, ne_eq, decide_eq_true_eq]
    omega
  have htrim : trimBytes (octPad 11 content.length) =
      octPad 11 content.length := by
    apply trimBytes_eq_self
    intro b hb
    have := octPad_mem hb
    simp only [isJsSpace, Bool.or_eq_false_iff, beq_eq_false_iff_ne, ne_eq,
      Bool.and_eq_false_iff, decide_eq_false_iff_not]
    omega
  have hsizeval : parseOctal (trimBytes
      ((((tarHeaderRaw name content.length mtime chk).drop 124).take 12).filter
        (fun b => b != 0))) = content.length := by
    rw [hsz, List.filter_append, hoct, hfilter0, List.append_nil, htrim,
      parseOctal_octPad]
  -- content bytes are recovered exactly
  have hcontent : (((tarHeaderRaw name content.length mtime chk ++
      (content ++ (padding content.length ++ rest))).drop 512).take
        content.length) = content := by
    rw [hdrop512]
    exact List.take_left content _
  -- the loop advances exactly past the entry
  have hskip : (tarHeaderRaw name content.length mtime chk ++
      (content ++ (padding content.length ++ rest))).drop
        (512 + content.length +
          (if content.length % 512 > 0 then 512 - content.length % 512 else 0)) =
      rest := by
    have hpe : (tarHeaderRaw name content.length mtime chk ++
        (content ++ padding content.length)).length =
        512 + content.length +
          (if content.length % 512 > 0 then 512 - content.length % 512 else 0) := by
      simp only [List.length_append, hH, padding_length]
      by_cases h : content.length % 512 = 0
      · simp [h]
      · have : content.length % 512 > 0 := Nat.pos_of_ne_zero h
        simp [h, this]
        omega
    have hassoc : tarHeaderRaw name content.length mtime chk ++
        (content ++ (padding content.length ++ rest)) =
        (tarHeaderRaw name content.length mtime chk ++
          (content ++ padding content.length)) ++ rest := by
      simp [List.append_assoc]
    rw [hassoc, List.drop_left' hpe]
  rw [htar]
  simp only [tarEntriesAux]
  rw [if_pos hlen]
  simp only [hheader]
  rw [if_neg (by rw [hnz]; exact Bool.false_ne_true)]
  simp only [hname, hsizeval, hcontent, hskip]

/-- The end-of-archive marker stops the loop. -/
lemma tarEntriesAux_end (fuel : Nat) :
    tarEntriesAux (fuel + 1) (List.replicate 1024 (0 : Nat)) = [] := by
  have hc : ((List.replicate 1024 (0 : Nat)).take 512).all
      (fun b => b == 0) = true := by
    rw [List.take_replicate]
    apply List.all_eq_true.mpr
    intro a ha
    simp [List.eq_of_mem_replicate ha]
  simp only [tarEntriesAux]
  rw [if_pos (by simp), if_pos hc]

lemma octPad_length_ge (w n : Nat) : w ≤ (octPad w n).length := by
  simp only [octPad, List.length_append, List.length_replicate]
  omega

lemma tarHeaderRaw_length_ge (name mtime chk : List Nat) (size : Nat) :
    512 ≤ (tarHeaderRaw name size mtime chk).length := by
  have := octPad_length_ge 11 size
  simp only [tarHeaderRaw, List.length_append, List.length_replicate,
    List.length_cons, List.length_nil, fieldPad_length, modeField, uidField]
  omega

lemma packEntryChk_length {chk mtime name content : List Nat}
    (hsize : content.length < 8 ^ 11) :
    (packEntryChk chk mtime (name, content)).length =
      512 + content.length + (padding content.length).length := by
  simp only [packEntryChk, List.length_append,
    tarHeaderRaw_length _ _ _ hsize]

lemma packEntryChk_length_ge (chk mtime : List Nat) (e : List Nat × List Nat) :
    512 ≤ (packEntryChk chk mtime e).length := by
  have := tarHeaderRaw_length_ge e.1 mtime chk e.2.length
  simp only [packEntryChk, List.length_append]
  omega

lemma packEntry_eq_chk (mtime : List Nat) (e : List Nat × List Nat) :
    packEntry mtime e =
      packEntryChk (chkField (tarChecksum e.1 e.2.length mtime)) mtime e := rfl

lemma packTail_length_ge (mtime : List Nat) (es : List (List Nat × List Nat)) :
    512 * es.length + 1024 ≤ (packTail mtime es).length := by
  induction es with
  | nil => simp [packTail]
  | cons e es ih =>
    have h1 : 512 ≤ (packEntry mtime e).length := by
      rw [packEntry_eq_chk]
      exact packEntryChk_length_ge _ _ _
    simp only [packTail, List.length_append, List.length_cons]
    omega

lemma packTailChk_length_ge (chks : Nat → List Nat) (mtime : List Nat)
    (es : List (List Nat × List Nat)) :
    512 * es.length + 1024 ≤ (packTailChk chks mtime es).length := by
  induction es generalizing chks with
  | nil => simp [packTailChk]
  | cons e es ih =>
    have h1 := packEntryChk_length_ge (chks 0) mtime e
    have h2 := ih (fun i => chks (i + 1))
    simp only [packTailChk, List.length_append, List.length_cons]
    omega

lemma pack_length_ge (mtime mb : List Nat) (es : List (List Nat × List Nat)) :
    512 * (es.length + 3) ≤ (pack mtime mb es).length := by
  have h1 : 512 ≤ (packEntry mtime (manifestNameBytes, mb)).length := by
    rw [packEntry_eq_chk]
    exact packEntryChk_length_ge _ _ _
  have h2 := packTail_length_ge mtime es
  simp only [pack, List.length_append]
  omega

lemma packChk_length_ge (chks : Nat → List Nat) (mtime mb : List Nat)
    (es : List (List Nat × List Nat)) :
    512 * (es.length + 3) ≤ (packChk chks mtime mb es).length := by
  have h1 := packEntryChk_length_ge (chks 0) mtime (manifestNameBytes, mb)
  have h2 := packTailChk_length_ge (fun i => chks (i + 1)) mtime es
  simp only [packChk, List.length_append]
  omega

/-- The unpack loop reads back the packed file entries in order, stripping
NUL bytes from and truncating to 99 bytes each stored name. -/
lemma tarEntriesAux_packTail (mtime : List Nat)
    (es : List (List Nat × List Nat)) (fuel : Nat)
    (hfuel : es.length + 1 ≤ fuel)
    (hsz : ∀ e ∈ es, e.2.length < 8 ^ 11) :
    tarEntriesAux fuel (packTail mtime es) =
      es.map (fun e => ((e.1.take 99).filter (fun b => b != 0), e.2)) := by
  induction es generalizing fuel with
  | nil =>
    obtain ⟨f, rfl⟩ : ∃ f, fuel = f + 1 := ⟨fuel - 1, by omega⟩
    exact tarEntriesAux_end f
  | cons e es ih =>
    obtain ⟨f, rfl⟩ : ∃ f, fuel = f + 1 := ⟨fuel - 1, by omega⟩
    have hsplit : packTail mtime (e :: es) =
        packEntryChk (chkField (tarChecksum e.1 e.2.length mtime)) mtime
          (e.1, e.2) ++ packTail mtime es := rfl
    rw [hsplit, tarEntriesAux_cons f _ mtime e.1 e.2 _ (hsz e (by simp))]
    rw [ih f (by simp only [List.length_cons] at hfuel; omega)
      (fun x hx => hsz x (by simp [hx]))]
    rfl

/-- Same as `tarEntriesAux_packTail`, for arbitrary checksum-field bytes:
the parsed entries do not depend on the checksum fields at all. -/
lemma tarEntriesAux_packTailChk (mtime : List Nat)
    (es : List (List Nat × List Nat)) :
    ∀ (chks : Nat → List Nat) (fuel : Nat), es.length + 1 ≤ fuel →
    (∀ e ∈ es, e.2.length < 8 ^ 11) →
    tarEntriesAux fuel (packTailChk chks mtime es) =
      es.map (fun e => ((e.1.take 99).filter (fun b => b != 0), e.2)) := by
  induction es with
  | nil =>
    intro chks fuel hfuel _
    obtain ⟨f, rfl⟩ : ∃ f, fuel = f + 1 := ⟨fuel - 1, by omega⟩
    exact tarEntriesAux_end f
  | cons e es ih =>
    intro chks fuel hfuel hsz
    obtain ⟨f, rfl⟩ : ∃ f, fuel = f + 1 := ⟨fuel - 1, by omega⟩
    have hsplit : packTailChk chks mtime (e :: es) =
        packEntryChk (chks 0) mtime (e.1, e.2) ++
          packTailChk (fun i => chks (i + 1)) mtime es := rfl
    rw [hsplit, tarEntriesAux_cons f (chks 0) mtime e.1 e.2 _ (hsz e (by simp))]
    rw [ih (fun i => chks (i + 1)) f
      (by simp only [List.length_cons] at hfuel; omega)
      (fun x hx => hsz x (by simp [hx]))]
    rfl

/-- The manifest name survives the NUL-strip and truncation unchanged. -/
lemma manifestName_roundtrip :
    (manifestNameBytes.take 99).filter (fun b => b != 0) =
      manifestNameBytes := by decide

/-- Full container round-trip of the codec: the unpack loop recovers the
manifest entry and every packed file entry, in order, with exact bytes. -/
lemma tarEntries_pack (mtime mb : List Nat) (es : List (List Nat × List Nat))
    (hmb : mb.length < 8 ^ 11) (hsz : ∀ e ∈ es, e.2.length < 8 ^ 11) :
    tarEntries (pack mtime mb es) =
      (manifestNameBytes, mb) ::
        es.map (fun e => ((e.1.take 99).filter (fun b => b != 0), e.2)) := by
  have hdiv : es.length + 3 ≤ (pack mtime mb es).length / 512 := by
    rw [Nat.le_div_iff_mul_le (by norm_num)]
    have := pack_length_ge mtime mb es
    omega
  have hstep : tarEntries (pack mtime mb es) =
      tarEntriesAux ((pack mtime mb es).length / 512 + 1)
        (packEntryChk (chkField (tarChecksum manifestNameBytes mb.length mtime))
          mtime (manifestNameBytes, mb) ++ packTail mtime es) := rfl
  rw [hstep, tarEntriesAux_cons _ _ mtime manifestNameBytes mb _ hmb]
  rw [tarEntriesAux_packTail mtime es _ (by omega) hsz]
  rw [manifestName_roundtrip]

/-- Codec round-trip for a container with arbitrary checksum-field bytes:
the parsed entries are the same as for the honestly checksummed `pack`. -/
lemma tarEntries_packChk (chks : Nat → List Nat) (mtime mb : List Nat)
    (es : List (List Nat × List Nat))
    (hmb : mb.length < 8 ^ 11) (hsz : ∀ e ∈ es, e.2.length < 8 ^ 11) :
    tarEntries (packChk chks mtime mb es) =
      (manifestNameBytes, mb) ::
        es.map (fun e => ((e.1.take 99).filter (fun b => b != 0), e.2)) := by
  have hdiv : es.length + 3 ≤ (packChk chks mtime mb es).length / 512 := by
    rw [Nat.le_div_iff_mul_le (by norm_num)]
    have := packChk_length_ge chks mtime mb es
    omega
  have hstep : tarEntries (packChk chks mtime mb es) =
      tarEntriesAux ((packChk chks mtime mb es).length / 512 + 1)
        (packEntryChk (chks 0) mtime (manifestNameBytes, mb) ++
          packTailChk (fun i => chks (i + 1)) mtime es) := rfl
  rw [hstep, tarEntriesAux_cons _ _ mtime manifestNameBytes mb _ hmb]
  rw [tarEntriesAux_packTailChk mtime es (fun i => chks (i + 1)) _ (by omega) hsz]
  rw [manifestName_roundtrip]

/-! ## Characterizing the restore loop as a fold -/

/-- The restore loop, characterized componentwise: the manifest is the last
manifest entry, the restored categories are the processed entries' category
ids deduplicated in order, the file count is the number of processed
entries, and the writes (absent under dry-run) are the processed entries'
resolved paths and bytes, in order. -/
lemma foldl_processEntry (fc : Option (List String)) (dry : Bool)
    (oc ws : String) (es : List (List Nat × List Nat)) :
    ∀ st : TarRestoreState,
    es.foldl (processEntry fc dry oc ws) st =
      ⟨lastManifest st.manifest es,
       ((es.filter (entryProcessed fc)).map
         (fun e => firstSeg (asString e.1))).foldl addUnique
           st.restoredCategories,
       st.fileCount + es.countP (entryProcessed fc),
       st.writes ++ (if dry then []
         else (es.filter (entryProcessed fc)).map
           (fun e => (destPath oc ws (asString e.1), e.2)))⟩ := by
  induction es with
  | nil =>
    intro st
    simp [lastManifest]
  | cons e es ih =>
    intro st
    rw [List.foldl_cons, ih (processEntry fc dry oc ws st e)]
    have hlm : lastManifest st.manifest (e :: es) =
        lastManifest (if entryIsManifest e then some e.2 else st.manifest) es :=
      rfl
    cases hm : asString e.1 == "manifest.json" with
    | true =>
      have hpe : processEntry fc dry oc ws st e =
          { st with manifest := some e.2 } := by
        simp [processEntry, hm]
      have hproc : entryProcessed fc e = false := by
        unfold entryProcessed
        rw [hm]
        simp
      simp [hpe, hlm, entryIsManifest, hm, List.filter_cons, List.countP_cons,
        hproc]
    | false =>
      have hmf : entryIsManifest e = false := by simp [entryIsManifest, hm]
      cases hskip : filterSkips fc (firstSeg (asString e.1)) with
      | true =>
        have hpe : processEntry fc dry oc ws st e = st := by
          simp only [processEntry]
          rw [if_neg (by simp [hm]), if_pos hskip]
        have hproc : entryProcessed fc e = false := by
          unfold entryProcessed
          rw [hskip]
          simp
        simp [hpe, hlm, hmf, List.filter_cons, List.countP_cons, hproc]
      | false =>
        cases hcat : catLookup (firstSeg (asString e.1)) with
        | none =>
          have hpe : processEntry fc dry oc ws st e = st := by
            simp only [processEntry]
            rw [if_neg (by simp [hm]), if_neg (by simp [hskip]), hcat]
          have hproc : entryProcessed fc e = false := by
            unfold entryProcessed
            rw [hskip, hcat]
            simp
          simp [hpe, hlm, hmf, List.filter_cons, List.countP_cons, hproc]
        | some c =>
          have hpe : processEntry fc dry oc ws st e =
              { st with
                  restoredCategories :=
                    addUnique st.restoredCategories (firstSeg (asString e.1)),
                  fileCount := st.fileCount + 1,
                  writes := st.writes ++ (if dry then []
                    else [(destPath oc ws (asString e.1), e.2)]) } := by
            simp only [processEntry]
            rw [if_neg (by simp [hm]), if_neg (by simp [hskip]), hcat]
            cases dry with
            | true => simp
            | false => simp
          have hproc : entryProcessed fc e = true := by
            unfold entryProcessed
            rw [hm, hskip, hcat]
            simp
          cases dry with
          | true =>
            simp [hpe, hlm, hmf, List.filter_cons, List.countP_cons, hproc]
            omega
          | false =>
            simp [hpe, hlm, hmf, List.filter_cons, List.countP_cons, hproc]
            omega

/-- The function `restoreFromTar`, componentwise. -/
lemma restoreFromTar_eq (tar : List Nat) (opts : RestoreOptions)
    (oc ws : String) :
    restoreFromTar tar opts oc ws =
      ⟨lastManifest none (tarEntries tar),
       (((tarEntries tar).filter (entryProcessed opts.categories)).map
         (fun e => firstSeg (asString e.1))).foldl addUnique [],
       (tarEntries tar).countP (entryProcessed opts.categories),
       if opts.dryRun then []
       else ((tarEntries tar).filter (entryProcessed opts.categories)).map
         (fun e => (destPath oc ws (asString e.1), e.2))⟩ := by
  rw [restoreFromTar, foldl_processEntry]
  simp [initRestoreState]

/-! ## Restore over a well-formed archive header -/

/-- Parsing a well-formed archive `MAGIC ++ salt ++ iv ++ tag ++ ct`:
the magic check passes, the four header fields are recovered exactly, and
the result is decided by `aeadOpen` and `gunzip`. -/
lemma restoreBackup_headerOk (cm : CryptoModel) (salt iv tag ct : List Nat)
    (pass : String) (opts : RestoreOptions) (oc ws : String)
    (hs : salt.length = 32) (hiv : iv.length = 16) (htag : tag.length = 16) :
    restoreBackup cm (MAGIC ++ salt ++ iv ++ tag ++ ct) pass opts oc ws =
      (match cm.aeadOpen (cm.deriveKey pass salt) iv tag ct with
       | none => (.error .decryptionFailed, true)
       | some gz =>
         match cm.gunzip gz with
         | none => (.error .corruptArchive, true)
         | some tar => (.ok (restoreFromTar tar opts oc ws), true)) := by
  have h1 : MAGIC ++ salt ++ iv ++ tag ++ ct =
      MAGIC ++ (salt ++ (iv ++ (tag ++ ct))) := by
    simp [List.append_assoc]
  have h2 : MAGIC ++ salt ++ iv ++ tag ++ ct =
      (MAGIC ++ salt) ++ (iv ++ (tag ++ ct)) := by
    simp [List.append_assoc]
  have h3 : MAGIC ++ salt ++ iv ++ tag ++ ct =
      (MAGIC ++ salt ++ iv) ++ (tag ++ ct) := by
    simp [List.append_assoc]
  have h4 : MAGIC ++ salt ++ iv ++ tag ++ ct =
      (MAGIC ++ salt ++ iv ++ tag) ++ ct := rfl
  have hlen38 : (MAGIC ++ salt).length = 38 := by
    simp [MAGIC, hs]
  have hlen54 : (MAGIC ++ salt ++ iv).length = 54 := by
    simp [MAGIC, hs, hiv]
  have hlen70 : (MAGIC ++ salt ++ iv ++ tag).length = 70 := by
    simp [MAGIC, hs, hiv, htag]
  have hmagic : (MAGIC ++ salt ++ iv ++ tag ++ ct).take 6 = MAGIC := by
    rw [h1]
    exact List.take_left' (by decide)
  have hsalt : ((MAGIC ++ salt ++ iv ++ tag ++ ct).drop 6).take 32 = salt := by
    rw [h1, List.drop_left' (by decide)]
    exact List.take_left' hs
  have hiv2 : ((MAGIC ++ salt ++ iv ++ tag ++ ct).drop 38).take 16 = iv := by
    rw [h2, List.drop_left' hlen38]
    exact List.take_left' hiv
  have htag2 : ((MAGIC ++ salt ++ iv ++ tag ++ ct).drop 54).take 16 = tag := by
    rw [h3, List.drop_left' hlen54]
    exact List.take_left' htag
  have hct : (MAGIC ++ salt ++ iv ++ tag ++ ct).drop 70 = ct := by
    rw [h4]
    exact List.drop_left' hlen70
  simp only [restoreBackup]
  rw [if_pos hmagic, hsalt, hiv2, htag2, hct, if_neg (by simp [hiv])]

/-! ## Claim theorems -/

/-- C7: for every archive, passphrase and category filter, a `dryRun: true`
restore returns the same `fileCount` and the same `restoredCategories` as
the identical call without `dryRun`, and performs no filesystem write (its
write list is empty; the real call's `mkdir`/`writeFile` per-entry effects
are exactly its write list).  -/
theorem restore_dryRun_parity (cm : CryptoModel) (archive : List Nat)
    (pass : String) (cats : Option (List String)) (oc ws : String) :
    ((restoreBackup cm archive pass ⟨cats, true⟩ oc ws).1.map
        (fun st => (st.fileCount, st.restoredCategories)) =
      (restoreBackup cm archive pass ⟨cats, false⟩ oc ws).1.map
        (fun st => (st.fileCount, st.restoredCategories)))
    ∧ ((restoreBackup cm archive pass ⟨cats, true⟩ oc ws).1.map
        (fun st => st.writes) =
      (restoreBackup cm archive pass ⟨cats, true⟩ oc ws).1.map
        (fun _ => ([] : List (String × List Nat)))) := by
  simp only [restoreBackup]
  split_ifs with hmg hiv
  · exact ⟨rfl, rfl⟩
  · cases hopen : cm.aeadOpen (cm.deriveKey pass ((archive.drop 6).take 32))
        ((archive.drop 38).take 16) ((archive.drop 54).take 16)
        (archive.drop 70) with
    | none => exact ⟨rfl, rfl⟩
    | some gz =>
      cases hgz : cm.gunzip gz with
      | none => simp [hgz, Except.map]
      | some tar => simp [hgz, restoreFromTar_eq, Except.map]
  · exact ⟨rfl, rfl⟩

/-- With the filter `["config"]`, an entry is acted on precisely when its
first path segment is `"config"` (the manifest name never is, and
`"config"` is a registry id). -/
lemma entryProcessed_config (e : List Nat × List Nat) :
    entryProcessed (some ["config"]) e =
      (firstSeg (asString e.1) == "config") := by
  by_cases hc : firstSeg (asString e.1) = "config"
  · have hnm : (asString e.1 == "manifest.json") = false := by
      by_cases h : asString e.1 = "manifest.json"
      · exfalso
        rw [h] at hc
        exact absurd hc (by decide)
      · exact beq_eq_false_iff_ne.mpr h
    unfold entryProcessed filterSkips
    rw [hc, hnm]
    decide
  · have hne : (firstSeg (asString e.1) == "config") = false :=
      beq_eq_false_iff_ne.mpr hc
    rw [hne]
    unfold entryProcessed filterSkips
    have hcontains : (["config"] : List String).contains
        (firstSeg (asString e.1)) = false := by
      simp [hc]
    have hmatch : (match (some ["config"] : Option (List String)) with
        | some f => !(f.contains (firstSeg (asString e.1)))
        | none => false) = !((["config"] : List String).contains
          (firstSeg (asString e.1))) := rfl
    rw [hmatch, hcontains]
    simp

/-- Folding `addUnique` over a list of copies of one id yields that single
id (or nothing, for the empty list). -/
lemma foldl_addUnique_const (c : String) :
    ∀ l : List String, (∀ s ∈ l, s = c) →
    l.foldl addUnique [] = if l = [] then [] else [c] := by
  have haux : ∀ l : List String, (∀ s ∈ l, s = c) →
      l.foldl addUnique [c] = [c] := by
    intro l
    induction l with
    | nil => intro _; rfl
    | cons a t ih =>
      intro h
      rw [List.foldl_cons]
      have ha : addUnique [c] a = [c] := by
        rw [h a (by simp)]
        simp [addUnique]
      rw [ha]
      exact ih (fun s hs => h s (by simp [hs]))
  intro l
  cases l with
  | nil => intro _; rfl
  | cons a t =>
    intro h
    rw [List.foldl_cons]
    have ha : addUnique [] a = [c] := by
      rw [h a (by simp)]
      simp [addUnique]
    rw [ha, if_neg (by simp)]
    exact haux t (fun s hs => h s (by simp [hs]))

/-- C6: restoring with `categories: ["config"]` writes exactly the entries
whose first path segment is `"config"` (with their resolved paths and
bytes, in order), counts exactly those entries, and reports
`restoredCategories = ["config"]`, or `[]` if no such entry exists.
Entries with unknown category prefixes are skipped without failing the
operation (the loop is total and they contribute nothing). -/
theorem selective_restore_config (tar : List Nat) (oc ws : String) :
    ((restoreFromTar tar ⟨some ["config"], false⟩ oc ws).writes =
      ((tarEntries tar).filter
        (fun e => firstSeg (asString e.1) == "config")).map
          (fun e => (destPath oc ws (asString e.1), e.2)))
    ∧ ((restoreFromTar tar ⟨some ["config"], false⟩ oc ws).fileCount =
      (tarEntries tar).countP (fun e => firstSeg (asString e.1) == "config"))
    ∧ ((restoreFromTar tar ⟨some ["config"], false⟩ oc ws).restoredCategories =
      if (tarEntries tar).any (fun e => firstSeg (asString e.1) == "config")
      then ["config"] else []) := by
  have hpred : entryProcessed (some ["config"]) =
      fun e => firstSeg (asString e.1) == "config" :=
    funext entryProcessed_config
  rw [restoreFromTar_eq]
  refine ⟨by simp [hpred], by simp [hpred], ?_⟩
  show ((((tarEntries tar).filter
      (entryProcessed (some ["config"]))).map
        (fun e => firstSeg (asString e.1))).foldl addUnique []) = _
  rw [hpred]
  have hall : ∀ s ∈ ((tarEntries tar).filter
      (fun e => firstSeg (asString e.1) == "config")).map
        (fun e => firstSeg (asString e.1)), s = "config" := by
    intro s hs
    obtain ⟨x, hx, rfl⟩ := List.mem_map.mp hs
    exact eq_of_beq (List.mem_filter.mp hx).2
  rw [foldl_addUnique_const "config" _ hall]
  by_cases hany : (tarEntries tar).any
      (fun e => firstSeg (asString e.1) == "config") = true
  · obtain ⟨x, hx, hpx⟩ := List.any_eq_true.mp hany
    rw [if_pos hany, if_neg]
    intro hnil
    have hmem : x ∈ (tarEntries tar).filter
        (fun e => firstSeg (asString e.1) == "config") :=
      List.mem_filter.mpr ⟨hx, hpx⟩
    have : (firstSeg (asString x.1)) ∈ (((tarEntries tar).filter
        (fun e => firstSeg (asString e.1) == "config")).map
          (fun e => firstSeg (asString e.1))) :=
      List.mem_map_of_mem _ hmem
    rw [hnil] at this
    exact absurd this (List.not_mem_nil _)
  · have hf : (tarEntries tar).filter
        (fun e => firstSeg (asString e.1) == "config") = [] := by
      apply List.filter_eq_nil_iff.mpr
      intro x hx
      intro hpx
      exact hany (List.any_eq_true.mpr ⟨x, hx, hpx⟩)
    rw [hf, List.map_nil, if_pos rfl, if_neg hany]

/-- Every content slice the unpack loop takes is bounded by the container
length (`subarray` clamps; no out-of-bounds read is possible). -/
lemma tarEntriesAux_content_le (fuel : Nat) :
    ∀ (tar : List Nat), ∀ e ∈ tarEntriesAux fuel tar,
      e.2.length ≤ tar.length := by
  induction fuel with
  | zero =>
    intro tar e he
    simp [tarEntriesAux] at he
  | succ f ih =>
    intro tar e he
    simp only [tarEntriesAux] at he
    by_cases h512 : 512 ≤ tar.length
    · rw [if_pos h512] at he
      by_cases hz : (tar.take 512).all (fun b => b == 0) = true
      · rw [if_pos hz] at he
        exact absurd he (List.not_mem_nil e)
      · rw [if_neg hz] at he
        rcases List.mem_cons.mp he with rfl | htail
        · have h1 : (((tar.drop 512).take (parseOctal (trimBytes
              ((((tar.take 512).drop 124).take 12).filter
                (fun b => b != 0)))))).length ≤ (tar.drop 512).length :=
            List.length_take_le' _ _
          have h2 : (tar.drop 512).length ≤ tar.length := by
            simp [List.length_drop]
          exact le_trans h1 h2
        · exact le_trans (ih _ e htail) (by simp [List.length_drop])
    · rw [if_neg h512] at he
      exact absurd he (List.not_mem_nil e)

/-- C4 (amended): a metadata block declaring a size beyond the remaining
bytes cannot cause an out-of-bounds read: every entry the unpack loop
produces has its content bounded by the container length.  (The loop does
not raise a decode error for such blocks: see the counterexample theorem,
where the truncated entry is silently accepted.) -/
theorem unpack_slicing_bounded (tar : List Nat) :
    ∀ e ∈ tarEntries tar, e.2.length ≤ tar.length :=
  tarEntriesAux_content_le _ tar

/-- Witness for `unpack_slicing_bounded` at a concrete malformed container. -/
theorem unpack_slicing_bounded_witness :
    (([98, 114, 97, 105, 110, 47, 120].filter (fun b => b != 0),
        List.replicate 512 (7 : Nat)) ∈
      tarEntries (tarHeader [98, 114, 97, 105, 110, 47, 120] 4096
        (List.replicate 12 48) ++ List.replicate 512 7))
    ∧ (List.replicate 512 (7 : Nat)).length ≤
        (tarHeader [98, 114, 97, 105, 110, 47, 120] 4096
          (List.replicate 12 48) ++ List.replicate 512 7).length := by
  have hm : ([98, 114, 97, 105, 110, 47, 120].filter (fun b => b != 0),
      List.replicate 512 (7 : Nat)) ∈
      tarEntries (tarHeader [98, 114, 97, 105, 110, 47, 120] 4096
        (List.replicate 12 48) ++ List.replicate 512 7) := by decide
  exact ⟨hm, unpack_slicing_bounded _ _ hm⟩

/-- C4 (counterexample to the claim as stated): on a malformed size field
the restore loop does NOT fail with a decode error — it completes
successfully, silently accepting the entry truncated to the 512 available
bytes and writing it out. -/
theorem unpack_accepts_truncated_entry :
    restoreFromTar badSizeTar ⟨none, false⟩ "/oc" "/ws" =
      ⟨none, ["brain"], 1, [("/oc/brain/x", List.replicate 512 7)]⟩ := by
  decide

/-- C3 (amended): a file whose first 6 bytes differ from the magic constant
fails with `InvalidArchive` before any cryptographic operation — the result
holds for every crypto model, and the key-derivation flag is `false`.
(For a file that is shorter than the 70-byte header but whose first bytes do
equal the magic, key derivation IS invoked: see the counterexample.) -/
theorem badMagic_invalidArchive (cm : CryptoModel) (archive : List Nat)
    (pass : String) (opts : RestoreOptions) (oc ws : String)
    (h : archive.take 6 ≠ MAGIC) :
    restoreBackup cm archive pass opts oc ws =
      (.error .invalidArchive, false) := by
  simp only [restoreBackup]
  rw [if_neg h]

/-- Witness for `badMagic_invalidArchive` at a concrete bad file. -/
theorem badMagic_invalidArchive_witness :
    (([0, 1, 2] : List Nat).take 6 ≠ MAGIC)
    ∧ restoreBackup cmTriv [0, 1, 2] "p" ⟨none, false⟩ "/oc" "/ws" =
        (.error .invalidArchive, false) :=
  ⟨by decide, badMagic_invalidArchive cmTriv [0, 1, 2] "p" ⟨none, false⟩
    "/oc" "/ws" (by decide)⟩

/-- C3 (counterexample to the claim as stated): the 6-byte file consisting
of exactly the magic constant is truncated (shorter than the 70-byte
header), yet `restoreBackup` does NOT fail with `InvalidArchive` and key
derivation IS invoked (the flag is `true`): only then does
`createDecipheriv` reject the empty IV with an unrelated error.  The claim's
truncated-header clause is false on the code. -/
theorem truncated_header_derives_key :
    MAGIC.length < 70
    ∧ restoreBackup cmTriv MAGIC "p" ⟨none, false⟩ "/oc" "/ws" =
        (.error .cryptoError, true) := by
  exact ⟨by decide, rfl⟩

/-- C2: for an archive produced by `createBackup`, under the ideal
assumptions on the platform crypto (a different passphrase derives a
different key, and authenticated decryption succeeds only on the exact
sealed key/tag/ciphertext triple — the PBKDF2/AES-GCM security contract),
restoring with any other passphrase, and restoring the archive with any
single byte of the authentication tag (offsets 54–69) or of the ciphertext
(offsets ≥ 70) changed, both fail with `DecryptionFailed`.  The error result
carries no restore state, so no plaintext is ever returned or written. -/
theorem wrong_pass_or_tamper_fails (cm : CryptoModel) (pass : String)
    (salt iv mtime : List Nat) (createdAt hostname : String)
    (catIds : List String) (files : List (List Nat × List Nat))
    (mjson : BackupManifest → List Nat) (ct tag : List Nat)
    (opts : RestoreOptions) (oc ws : String)
    (hs : salt.length = 32) (hiv : iv.length = 16) (htag : tag.length = 16)
    (hseal : cm.aeadSeal (cm.deriveKey pass salt) iv
      (cm.gzip (pack mtime
        (mjson ⟨"1", createdAt, hostname, catIds, files.length, 0⟩) files)) =
      (ct, tag))
    (hideal : ∀ k t c, ¬(k = cm.deriveKey pass salt ∧ t = tag ∧ c = ct) →
      cm.aeadOpen k iv t c = none) :
    (∀ pass₂, cm.deriveKey pass₂ salt ≠ cm.deriveKey pass salt →
      restoreBackup cm
        (createBackup cm pass salt iv mtime createdAt hostname catIds files
          mjson).archive pass₂ opts oc ws =
        (.error .decryptionFailed, true))
    ∧ (∀ i b pass₂, 54 ≤ i →
        i < (createBackup cm pass salt iv mtime createdAt hostname catIds
          files mjson).archive.length →
        (createBackup cm pass salt iv mtime createdAt hostname catIds files
          mjson).archive.getD i 0 ≠ b →
        restoreBackup cm
          ((createBackup cm pass salt iv mtime createdAt hostname catIds
            files mjson).archive.set i b) pass₂ opts oc ws =
          (.error .decryptionFailed, true)) := by
  have harch : (createBackup cm pass salt iv mtime createdAt hostname catIds
      files mjson).archive = MAGIC ++ salt ++ iv ++ tag ++ ct := by
    show MAGIC ++ salt ++ iv ++
        (cm.aeadSeal (cm.deriveKey pass salt) iv
          (cm.gzip (pack mtime
            (mjson ⟨"1", createdAt, hostname, catIds, files.length, 0⟩)
            files))).2 ++
        (cm.aeadSeal (cm.deriveKey pass salt) iv
          (cm.gzip (pack mtime
            (mjson ⟨"1", createdAt, hostname, catIds, files.length, 0⟩)
            files))).1 = MAGIC ++ salt ++ iv ++ tag ++ ct
    rw [hseal]
  constructor
  · intro pass₂ hkey
    rw [harch, restoreBackup_headerOk cm salt iv tag ct pass₂ opts oc ws
      hs hiv htag]
    rw [hideal (cm.deriveKey pass₂ salt) tag ct
      (by intro hcon; exact hkey hcon.1)]
  · intro i b pass₂ h54 hlen hold
    rw [harch] at hlen hold ⊢
    have hP54 : (MAGIC ++ salt ++ iv).length = 54 := by
      simp [MAGIC, hs, hiv]
    have hgroup : MAGIC ++ salt ++ iv ++ tag ++ ct =
        (MAGIC ++ salt ++ iv) ++ (tag ++ ct) := by
      simp [List.append_assoc]
    have htclen : ((tag ++ ct).set (i - 54) b).length = 16 + ct.length := by
      simp [List.length_set, List.length_append, htag]
    have hset : (MAGIC ++ salt ++ iv ++ tag ++ ct).set i b =
        (MAGIC ++ salt ++ iv) ++ ((tag ++ ct).set (i - 54) b) := by
      rw [hgroup, List.set_append_right _ _ (by rw [hP54]; omega), hP54]
    have hj : i - 54 < (tag ++ ct).length := by
      have h1 : (MAGIC ++ salt ++ iv ++ tag ++ ct).length = 70 + ct.length := by
        simp [MAGIC, hs, hiv, htag]
        omega
      rw [h1] at hlen
      simp only [List.length_append, htag]
      omega
    have hbyte : (tag ++ ct).getD (i - 54) 0 ≠ b := by
      intro hb
      apply hold
      rw [hgroup]
      rw [List.getD_eq_getElem?_getD,
        List.getElem?_append_right (by rw [hP54]; omega), hP54]
      rw [← List.getD_eq_getElem?_getD]
      exact hb
    have htake16len : (((tag ++ ct).set (i - 54) b).take 16).length = 16 := by
      simp only [List.length_take, htclen]
      omega
    have hsplit : (MAGIC ++ salt ++ iv) ++ ((tag ++ ct).set (i - 54) b) =
        MAGIC ++ salt ++ iv ++ (((tag ++ ct).set (i - 54) b).take 16) ++
          (((tag ++ ct).set (i - 54) b).drop 16) := by
      conv_lhs => rw [← List.take_append_drop 16 ((tag ++ ct).set (i - 54) b)]
      simp [List.append_assoc]
    rw [hset, hsplit, restoreBackup_headerOk cm salt iv _ _ pass₂ opts oc ws
      hs hiv htake16len]
    have hne : ¬(cm.deriveKey pass₂ salt = cm.deriveKey pass salt ∧
        ((tag ++ ct).set (i - 54) b).take 16 = tag ∧
        ((tag ++ ct).set (i - 54) b).drop 16 = ct) := by
      rintro ⟨-, ht, hc⟩
      have heq : (tag ++ ct).set (i - 54) b = tag ++ ct := by
        rw [← List.take_append_drop 16 ((tag ++ ct).set (i - 54) b), ht, hc]
      apply hbyte
      have hgot := congrArg (fun l => l.getD (i - 54) 0) heq
      simp only at hgot
      rw [← hgot]
      rw [List.getD_eq_getElem?_getD, List.getElem?_set_self',
        List.getElem?_eq_getElem hj]
      rfl
    rw [hideal _ _ _ hne]

/-- Witness for `wrong_pass_or_tamper_fails`: a concrete archive, a wrong
passphrase, and the `DecryptionFailed` outcome. -/
theorem wrong_pass_or_tamper_fails_witness :
    (cmStrict.deriveKey "xx" salt0 ≠ cmStrict.deriveKey "pw" salt0)
    ∧ restoreBackup cmStrict
        (createBackup cmStrict "pw" salt0 iv0 mtime0 "t" "h" [] []
          mjson0).archive "xx" ⟨none, false⟩ "/oc" "/ws" =
        (.error .decryptionFailed, true) := by
  have hideal : ∀ k t c,
      ¬(k = cmStrict.deriveKey "pw" salt0 ∧ t = TAG0 ∧ c = CT0) →
      cmStrict.aeadOpen k iv0 t c = none := by
    intro k t c h
    show (if k = 1 ∧ t = TAG0 ∧ c = CT0 then some CT0 else none) = none
    rw [if_neg]
    intro hcon
    exact h ⟨hcon.1, hcon.2.1, hcon.2.2⟩
  have hkey : cmStrict.deriveKey "xx" salt0 ≠ cmStrict.deriveKey "pw" salt0 :=
    by decide
  exact ⟨hkey,
    (wrong_pass_or_tamper_fails cmStrict "pw" salt0 iv0 mtime0 "t" "h" [] []
      mjson0 CT0 TAG0 ⟨none, false⟩ "/oc" "/ws" (by decide) (by decide)
      (by decide) rfl hideal).1 "xx" hkey⟩

/-- If no entry is the manifest entry, the manifest default survives. -/
lemma lastManifest_no_manifest (d : Option (List Nat)) :
    ∀ es : List (List Nat × List Nat),
    (∀ e ∈ es, entryIsManifest e = false) → lastManifest d es = d := by
  intro es
  induction es generalizing d with
  | nil => intro _; rfl
  | cons e t ih =>
    intro h
    rw [lastManifest, h e (by simp), if_neg (by simp)]
    exact ih d (fun x hx => h x (by simp [hx]))

/-- An entry whose first path segment is a registry category id is not the
manifest entry (`"manifest.json"` is not a category id). -/
lemma entryIsManifest_false_of_cat {e : List Nat × List Nat}
    (hcat : (catLookup (firstSeg (asString e.1))).isSome = true) :
    entryIsManifest e = false := by
  by_cases h : asString e.1 = "manifest.json"
  · exfalso
    rw [h] at hcat
    exact absurd hcat (by decide)
  · simp [entryIsManifest, h]

/-- With no category filter, an entry whose first path segment is a registry
category id is processed by the loop. -/
lemma entryProcessed_none_of_cat {e : List Nat × List Nat}
    (hcat : (catLookup (firstSeg (asString e.1))).isSome = true) :
    entryProcessed none e = true := by
  have hm : (asString e.1 == "manifest.json") = false := by
    have := entryIsManifest_false_of_cat hcat
    simpa [entryIsManifest] using this
  unfold entryProcessed filterSkips
  rw [hm, hcat]
  rfl

set_option maxHeartbeats 1000000 in
/-- C1 (amended): the round-trip.  For an archive produced by
`createBackup` and opened with the same passphrase (ideal AEAD and gzip
round-trip hypotheses on the platform primitives), when every collected
file's archive name is at most 99 bytes with no NUL byte (the tar name
field width — longer names are truncated, see the counterexample) and its
first path segment is a registry category id, `restoreBackup` with no
category filter succeeds and writes every originally collected file, in
order, with exactly the name-derived destination path and exactly the
original bytes; the manifest entry is recovered exactly as serialized. -/
theorem roundtrip_restores_files (cm : CryptoModel) (pass : String)
    (salt iv mtime mb : List Nat) (createdAt hostname : String)
    (catIds : List String) (files : List (List Nat × List Nat))
    (mjson : BackupManifest → List Nat) (ct tag : List Nat) (oc ws : String)
    (hs : salt.length = 32) (hiv : iv.length = 16) (htag : tag.length = 16)
    (hmj : mjson ⟨"1", createdAt, hostname, catIds, files.length, 0⟩ = mb)
    (hseal : cm.aeadSeal (cm.deriveKey pass salt) iv
      (cm.gzip (pack mtime mb files)) = (ct, tag))
    (hopen : cm.aeadOpen (cm.deriveKey pass salt) iv tag ct =
      some (cm.gzip (pack mtime mb files)))
    (hgz : cm.gunzip (cm.gzip (pack mtime mb files)) =
      some (pack mtime mb files))
    (hmb : mb.length < 8 ^ 11)
    (hwf : ∀ e ∈ files,
      e.1.length ≤ 99 ∧ (∀ b ∈ e.1, b ≠ 0) ∧ e.2.length < 8 ^ 11)
    (hcat : ∀ e ∈ files, (catLookup (firstSeg (asString e.1))).isSome = true) :
    (restoreBackup cm
      (createBackup cm pass salt iv mtime createdAt hostname catIds files
        mjson).archive pass ⟨none, false⟩ oc ws).1.map
      (fun st => (st.manifest, st.fileCount, st.writes)) =
    .ok (some mb, files.length,
      files.map (fun e => (destPath oc ws (asString e.1), e.2))) := by
  have harch : (createBackup cm pass salt iv mtime createdAt hostname catIds
      files mjson).archive = MAGIC ++ salt ++ iv ++ tag ++ ct := by
    show MAGIC ++ salt ++ iv ++
        (cm.aeadSeal (cm.deriveKey pass salt) iv
          (cm.gzip (pack mtime
            (mjson ⟨"1", createdAt, hostname, catIds, files.length, 0⟩)
            files))).2 ++
        (cm.aeadSeal (cm.deriveKey pass salt) iv
          (cm.gzip (pack mtime
            (mjson ⟨"1", createdAt, hostname, catIds, files.length, 0⟩)
            files))).1 = MAGIC ++ salt ++ iv ++ tag ++ ct
    rw [hmj, hseal]
  rw [harch, restoreBackup_headerOk cm salt iv tag ct pass ⟨none, false⟩
    oc ws hs hiv htag, hopen]
  simp only [hgz, Except.map]
  rw [restoreFromTar_eq]
  have hentries : tarEntries (pack mtime mb files) =
      (manifestNameBytes, mb) :: files := by
    rw [tarEntries_pack mtime mb files hmb (fun e he => (hwf e he).2.2)]
    congr 1
    have hid : ∀ e ∈ files,
        ((e.1.take 99).filter (fun b => b != 0), e.2) = e := by
      intro e he
      obtain ⟨h99, hnz, -⟩ := hwf e he
      rw [List.take_of_length_le h99,
        List.filter_eq_self.mpr (fun b hb => by simpa using hnz b hb)]
    calc files.map (fun e => ((e.1.take 99).filter (fun b => b != 0), e.2))
        = files.map id := List.map_congr_left hid
      _ = files := List.map_id files
  have hmanifestHead : entryIsManifest (manifestNameBytes, mb) = true := by
    simp [entryIsManifest]
    decide
  have hprocHead : entryProcessed none (manifestNameBytes, mb) = false := by
    have : (asString manifestNameBytes == "manifest.json") = true := by decide
    simp [entryProcessed, this]
  dsimp only
  rw [hentries]
  have hlm : lastManifest none ((manifestNameBytes, mb) :: files) =
      lastManifest (if entryIsManifest (manifestNameBytes, mb) = true
        then some mb else none) files := rfl
  rw [hlm, hmanifestHead, if_pos rfl]
  rw [lastManifest_no_manifest (some mb) files
    (fun e he => entryIsManifest_false_of_cat (hcat e he))]
  rw [List.countP_cons, List.filter_cons, hprocHead]
  rw [List.countP_eq_length.mpr
    (fun e he => entryProcessed_none_of_cat (hcat e he))]
  rw [List.filter_eq_self.mpr
    (fun e he => entryProcessed_none_of_cat (hcat e he))]
  simp

/-- Witness for `roundtrip_restores_files`: one collected file
`brain/x` with bytes `[1, 2, 3]` round-trips to a write of exactly those
bytes at `/oc/brain/x`. -/
theorem roundtrip_restores_files_witness :
    (∀ e ∈ ([([98, 114, 97, 105, 110, 47, 120], [1, 2, 3])] :
        List (List Nat × List Nat)),
      (catLookup (firstSeg (asString e.1))).isSome = true)
    ∧ (restoreBackup cmTriv
        (createBackup cmTriv "pw" salt0 iv0 mtime0 "t" "h" ["brain"]
          [([98, 114, 97, 105, 110, 47, 120], [1, 2, 3])] mjson0).archive
        "pw" ⟨none, false⟩ "/oc" "/ws").1.map
        (fun st => (st.manifest, st.fileCount, st.writes)) =
      .ok (some [123, 125], 1, [("/oc/brain/x", [1, 2, 3])]) := by
  refine ⟨by decide, ?_⟩
  have h := roundtrip_restores_files cmTriv "pw" salt0 iv0 mtime0 [123, 125]
    "t" "h" ["brain"] [([98, 114, 97, 105, 110, 47, 120], [1, 2, 3])] mjson0
    (pack mtime0 [123, 125] [([98, 114, 97, 105, 110, 47, 120], [1, 2, 3])])
    (List.replicate 16 0) "/oc" "/ws" (by decide) (by decide) (by decide)
    rfl rfl rfl rfl (by decide) (by decide) (by decide)
  exact h.trans (by rfl)

/-- C1 (counterexample to the claim as stated): names are truncated to 99
bytes by the tar name field (`name.slice(0, 99)`), so a collected file with
a 100-byte archive name is restored under a DIFFERENT (shortened)
destination path — the round-trip does not reproduce "exactly the same
name-derived destination-relative path" for every collected file.  The
bytes themselves are still intact. -/
theorem roundtrip_truncates_long_names :
    ((restoreBackup cmTriv
        (createBackup cmTriv "pw" salt0 iv0 mtime0 "t" "h" ["brain"]
          [(longName, [1, 2, 3])] mjson0).archive
        "pw" ⟨none, false⟩ "/oc" "/ws").1.map (fun st => st.writes) =
      .ok [(destPath "/oc" "/ws" (asString (longName.take 99)), [1, 2, 3])])
    ∧ destPath "/oc" "/ws" (asString (longName.take 99)) ≠
        destPath "/oc" "/ws" (asString longName) := by
  constructor
  · have harch : (createBackup cmTriv "pw" salt0 iv0 mtime0 "t" "h" ["brain"]
        [(longName, [1, 2, 3])] mjson0).archive =
        MAGIC ++ salt0 ++ iv0 ++ List.replicate 16 0 ++
          pack mtime0 [123, 125] [(longName, [1, 2, 3])] := rfl
    rw [harch, restoreBackup_headerOk cmTriv salt0 iv0 (List.replicate 16 0)
      (pack mtime0 [123, 125] [(longName, [1, 2, 3])]) "pw" ⟨none, false⟩
      "/oc" "/ws" (by decide) (by decide) (by decide)]
    have hopen : cmTriv.aeadOpen (cmTriv.deriveKey "pw" salt0) iv0
        (List.replicate 16 0)
        (pack mtime0 [123, 125] [(longName, [1, 2, 3])]) =
        some (pack mtime0 [123, 125] [(longName, [1, 2, 3])]) := rfl
    rw [hopen]
    have hgz : cmTriv.gunzip (pack mtime0 [123, 125] [(longName, [1, 2, 3])]) =
        some (pack mtime0 [123, 125] [(longName, [1, 2, 3])]) := rfl
    simp only [hgz, Except.map]
    rw [restoreFromTar_eq]
    dsimp only
    rw [tarEntries_pack mtime0 [123, 125] [(longName, [1, 2, 3])] (by decide)
      (by decide)]
    refine congrArg Except.ok ?_
    decide
  · decide

lemma packTail_length (mtime : List Nat) :
    ∀ es : List (List Nat × List Nat), (∀ e ∈ es, e.2.length < 8 ^ 11) →
    (packTail mtime es).length =
      (es.map (fun e => 512 + e.2.length + (padding e.2.length).length)).sum
        + 1024 := by
  intro es
  induction es with
  | nil => intro _; simp [packTail]
  | cons e t ih =>
    intro h
    have he : (packEntry mtime e).length =
        512 + e.2.length + (padding e.2.length).length := by
      rw [packEntry_eq_chk]
      exact packEntryChk_length (h e (by simp))
    simp only [packTail, List.length_append, List.map_cons, List.sum_cons, he,
      ih (fun x hx => h x (by simp [hx]))]
    omega

/-- The exact length of the packed container: a 512-byte metadata block plus
content plus zero padding per entry (manifest first), then the 1024-byte
end marker. -/
lemma pack_length (mtime mb : List Nat) (es : List (List Nat × List Nat))
    (hmb : mb.length < 8 ^ 11) (hsz : ∀ e ∈ es, e.2.length < 8 ^ 11) :
    (pack mtime mb es).length =
      512 + mb.length + (padding mb.length).length +
        ((es.map (fun e => 512 + e.2.length +
          (padding e.2.length).length)).sum + 1024) := by
  have h1 : (packEntry mtime (manifestNameBytes, mb)).length =
      512 + mb.length + (padding mb.length).length := by
    rw [packEntry_eq_chk]
    exact packEntryChk_length hmb
  simp only [pack, List.length_append, h1, packTail_length mtime es hsz]

/-- C5 (amended): the two manifest copies do NOT carry the payload byte sum.
The copy serialized as the first container entry is produced before any
content is read and stores `totalBytes = 0` (it is byte-for-byte
`mjson` of the record with `totalBytes := 0`); the copy returned in the
`BackupResult` is overwritten after packing with the length of the whole
uncompressed tar container — metadata blocks, padding and end marker
included — not with the sum of the content lengths. -/
theorem manifest_totalBytes_is_container_length (cm : CryptoModel)
    (pass : String) (salt iv mtime : List Nat) (createdAt hostname : String)
    (catIds : List String) (files : List (List Nat × List Nat))
    (mjson : BackupManifest → List Nat)
    (hmb : (mjson ⟨"1", createdAt, hostname, catIds, files.length,
      0⟩).length < 8 ^ 11)
    (hsz : ∀ e ∈ files, e.2.length < 8 ^ 11) :
    ((createBackup cm pass salt iv mtime createdAt hostname catIds files
        mjson).manifest.totalBytes =
      512 + (mjson ⟨"1", createdAt, hostname, catIds, files.length,
          0⟩).length +
        (padding (mjson ⟨"1", createdAt, hostname, catIds, files.length,
          0⟩).length).length +
        ((files.map (fun e => 512 + e.2.length +
          (padding e.2.length).length)).sum + 1024))
    ∧ ((tarEntries (pack mtime
        (mjson ⟨"1", createdAt, hostname, catIds, files.length, 0⟩)
        files)).headD ([], []) =
      (manifestNameBytes,
        mjson ⟨"1", createdAt, hostname, catIds, files.length, 0⟩)) := by
  constructor
  · have h0 : (createBackup cm pass salt iv mtime createdAt hostname catIds
        files mjson).manifest.totalBytes =
        (pack mtime (mjson ⟨"1", createdAt, hostname, catIds, files.length,
          0⟩) files).length := rfl
    rw [h0, pack_length _ _ _ hmb hsz]
  · rw [tarEntries_pack _ _ _ hmb hsz]
    rfl

/-- Witness for `manifest_totalBytes_is_container_length` at one concrete
backup. -/
theorem manifest_totalBytes_is_container_length_witness :
    ((mjson0 ⟨"1", "t", "h", ["brain"],
        ([([98, 114, 97, 105, 110, 47, 120], [1, 2, 3])] :
          List (List Nat × List Nat)).length, 0⟩).length < 8 ^ 11)
    ∧ (createBackup cmTriv "pw" salt0 iv0 mtime0 "t" "h" ["brain"]
        [([98, 114, 97, 105, 110, 47, 120], [1, 2, 3])]
        mjson0).manifest.totalBytes =
      512 + 2 + 510 + ((512 + 3 + 509) + 1024) := by
  refine ⟨by decide, ?_⟩
  have h := (manifest_totalBytes_is_container_length cmTriv "pw" salt0 iv0
    mtime0 "t" "h" ["brain"] [([98, 114, 97, 105, 110, 47, 120], [1, 2, 3])]
    mjson0 (by decide) (by decide)).1
  rw [h]
  decide

/-- C5 (counterexample to the claim as stated): for a backup of one 3-byte
file, the payload byte sum is 3, but the returned manifest's `totalBytes`
is 3072 (the container length), and the serialized first-entry manifest
was produced with `totalBytes = 0` (its bytes are `[1, 0]`, not the
`[1, 3]` the claim would require of this serializer). -/
theorem manifest_totalBytes_cex :
    (([([98, 114, 97, 105, 110, 47, 120], [1, 2, 3])].map
      (fun e => (e.2 : List Nat).length)).sum = 3)
    ∧ (createBackup cmTriv "pw" salt0 iv0 mtime0 "t" "h" ["brain"]
        [([98, 114, 97, 105, 110, 47, 120], [1, 2, 3])]
        mjsonC5).manifest.totalBytes = 3072
    ∧ (3072 : Nat) ≠ 3
    ∧ (tarEntries (pack mtime0
        (mjsonC5 ⟨"1", "t", "h", ["brain"], 1, 0⟩)
        [([98, 114, 97, 105, 110, 47, 120], [1, 2, 3])])).headD ([], []) =
      (manifestNameBytes, [1, 0])
    ∧ ([1, 0] : List Nat) ≠ [1, 3] := by
  refine ⟨by decide, ?_, by decide, ?_, by decide⟩
  · have h0 : (createBackup cmTriv "pw" salt0 iv0 mtime0 "t" "h" ["brain"]
        [([98, 114, 97, 105, 110, 47, 120], [1, 2, 3])]
        mjsonC5).manifest.totalBytes =
        (pack mtime0 (mjsonC5 ⟨"1", "t", "h", ["brain"], 1, 0⟩)
          [([98, 114, 97, 105, 110, 47, 120], [1, 2, 3])]).length := rfl
    rw [h0, pack_length _ _ _ (by decide) (by decide)]
    decide
  · rw [tarEntries_pack _ _ _ (by decide) (by decide)]
    rfl

/-- C8: two-phase pruning at `maxBackups = 1`.  For three `.ocbak` archives
with strictly decreasing modification times, none older than `maxAgeDays`,
pruning deletes nothing by age, then re-lists and deletes the excess beyond
the newest: exactly the newest archive remains in the directory, and the
other two filenames are reported as deleted (newest-first order). -/
theorem prune_keeps_newest (n1 n2 n3 : String) (s1 s2 s3 t1 t2 t3
    now maxAgeDays : Nat)
    (he1 : endsWithS n1 ".ocbak" = true) (he2 : endsWithS n2 ".ocbak" = true)
    (he3 : endsWithS n3 ".ocbak" = true)
    (hd12 : n1 ≠ n2) (hd13 : n1 ≠ n3) (hd23 : n2 ≠ n3)
    (ht21 : t2 < t1) (ht32 : t3 < t2)
    (ha1 : now - t1 ≤ maxAgeDays * 86400000)
    (ha2 : now - t2 ≤ maxAgeDays * 86400000)
    (ha3 : now - t3 ≤ maxAgeDays * 86400000) :
    pruneBackups [⟨n1, s1, t1⟩, ⟨n2, s2, t2⟩, ⟨n3, s3, t3⟩] [] now 1
      maxAgeDays = .ok ([n2, n3], [⟨n1, s1, t1⟩]) := by
  have b12 : (n1 == n2) = false := beq_eq_false_iff_ne.mpr hd12
  have b13 : (n1 == n3) = false := beq_eq_false_iff_ne.mpr hd13
  have b32 : (n3 == n2) = false := beq_eq_false_iff_ne.mpr (Ne.symm hd23)
  have hsort : listBackups [⟨n1, s1, t1⟩, ⟨n2, s2, t2⟩, ⟨n3, s3, t3⟩] =
      [⟨n1, s1, t1⟩, ⟨n2, s2, t2⟩, ⟨n3, s3, t3⟩] := by
    simp [listBackups, sortByMtimeDesc, insertByMtimeDesc, he1, he2, he3,
      ht32, ht21]
  have hage : pruneAge now (maxAgeDays * 86400000)
      [⟨n1, s1, t1⟩, ⟨n2, s2, t2⟩, ⟨n3, s3, t3⟩]
      [⟨n1, s1, t1⟩, ⟨n2, s2, t2⟩, ⟨n3, s3, t3⟩] [] =
      .ok ([⟨n1, s1, t1⟩, ⟨n2, s2, t2⟩, ⟨n3, s3, t3⟩], []) := by
    have hna1 : ¬(now - t1 > maxAgeDays * 86400000) := by omega
    have hna2 : ¬(now - t2 > maxAgeDays * 86400000) := by omega
    have hna3 : ¬(now - t3 > maxAgeDays * 86400000) := by omega
    simp [pruneAge, hna1, hna2, hna3]
  have hcount : pruneCount [⟨n2, s2, t2⟩, ⟨n3, s3, t3⟩]
      [⟨n1, s1, t1⟩, ⟨n2, s2, t2⟩, ⟨n3, s3, t3⟩] ([] : List String) =
      .ok ([⟨n1, s1, t1⟩], [n2, n3]) := by
    simp [pruneCount, unlinkF, b12, b13, b32, List.any_cons,
      List.filter_cons]
  simp only [pruneBackups]
  rw [show ([⟨n1, s1, t1⟩, ⟨n2, s2, t2⟩, ⟨n3, s3, t3⟩] :
      List ArchiveFile).filter (fun f => !(([] : List String).contains
        f.name)) = [⟨n1, s1, t1⟩, ⟨n2, s2, t2⟩, ⟨n3, s3, t3⟩] from by simp]
  rw [hsort, hage]
  dsimp only
  rw [hsort]
  rw [if_pos (by norm_num)]
  dsimp only [List.drop]
  rw [hcount]

/-- Witness for `prune_keeps_newest` at concrete filenames and times. -/
theorem prune_keeps_newest_witness :
    (endsWithS "a.ocbak" ".ocbak" = true)
    ∧ pruneBackups [⟨"a.ocbak", 9, 300⟩, ⟨"b.ocbak", 9, 200⟩,
        ⟨"c.ocbak", 9, 100⟩] [] 300 1 1 =
      .ok (["b.ocbak", "c.ocbak"], [⟨"a.ocbak", 9, 300⟩]) :=
  ⟨by decide, prune_keeps_newest "a.ocbak" "b.ocbak" "c.ocbak" 9 9 9 300 200
    100 300 1 (by decide) (by decide) (by decide) (by decide) (by decide)
    (by decide) (by decide) (by decide) (by decide) (by decide) (by decide)⟩

/-- C9: the code aborts pruning when a single deletion fails.  Three
archives are listed, all older than the age limit; the middle one vanishes
between listing and deletion.  The first deletion succeeds, the second
(`unlink` of the vanished file) rejects, and — since the source has no
try/catch around `unlink` — the whole `pruneBackups` call rejects: the
third archive is never pruned and no filename list is returned, contrary to
the claim that a vanished archive is treated as already pruned and pruning
continues. -/
theorem prune_aborts_on_vanished_archive :
    pruneBackups [⟨"a.ocbak", 1, 300⟩, ⟨"b.ocbak", 1, 200⟩,
      ⟨"c.ocbak", 1, 100⟩] ["b.ocbak"] (86400000 * 2) 5 1 = .error () := by
  rfl

/-- C10: the per-block checksum `pack` embeds is never verified on unpack.
`packChk f` and `packChk g` are byte-identical containers except in the
checksum field (offsets 148–155) of each metadata block, where they carry
the arbitrary bytes `f i` and `g i` respectively (the honestly checksummed
`pack` is the instance `f = real checksum`).  Restoring the two containers
produces identical results — same manifest, same writes with the same
contents, same `restoredCategories` and `fileCount` — for every option set:
corruption confined to the checksum fields is silently accepted. -/
theorem checksum_never_verified (f g : Nat → List Nat) (mtime mb : List Nat)
    (es : List (List Nat × List Nat)) (opts : RestoreOptions) (oc ws : String)
    (hmb : mb.length < 8 ^ 11) (hsz : ∀ e ∈ es, e.2.length < 8 ^ 11) :
    restoreFromTar (packChk f mtime mb es) opts oc ws =
      restoreFromTar (packChk g mtime mb es) opts oc ws := by
  rw [restoreFromTar_eq, restoreFromTar_eq,
    tarEntries_packChk f mtime mb es hmb hsz,
    tarEntries_packChk g mtime mb es hmb hsz]

/-- Witness for `checksum_never_verified`: zeroed versus all-255 checksum
fields around one packed file. -/
theorem checksum_never_verified_witness :
    (([123, 125] : List Nat).length < 8 ^ 11)
    ∧ restoreFromTar (packChk (fun _ => []) mtime0 [123, 125]
        [([98, 114, 97, 105, 110, 47, 120], [1, 2, 3])]) ⟨none, false⟩
        "/oc" "/ws" =
      restoreFromTar (packChk (fun _ => List.replicate 8 255) mtime0
        [123, 125] [([98, 114, 97, 105, 110, 47, 120], [1, 2, 3])])
        ⟨none, false⟩ "/oc" "/ws" :=
  ⟨by decide, checksum_never_verified (fun _ => [])
    (fun _ => List.replicate 8 255) mtime0 [123, 125]
    [([98, 114, 97, 105, 110, 47, 120], [1, 2, 3])] ⟨none, false⟩ "/oc" "/ws"
    (by decide) (by decide)⟩

end OCB
